import Mathlib

/-!
Shallow embedding of the source-node subsystem of the polars streaming engine
(`crates/polars-stream/src/nodes/io_sources/mod.rs`) and of the file-scan
descriptor (`crates/polars-plan/src/dsl/file_scan.rs`), together with proofs
of the behavioural claims about them.

Rust payload types that the embedded logic never inspects structurally
(format read options, cloud options, cached metadata blobs, morsels, error
values) are modelled as one-field wrapper structures over `Nat`: the custom
`PartialEq`/`Hash`/`remove_metadata` logic of `FileScan` only forwards to the
derived equality and hash of those payloads, and the adapter logic only moves
morsels and errors around, so a wrapper with decidable equality is a faithful
stand-in.
-/

namespace PolarsSpec

/-! ## file_scan.rs : payload stand-ins -/

/-- Stand-in for `CsvReadOptions` (derives `PartialEq`/`Hash` in Rust). -/
structure CsvReadOptions where
  v : Nat
deriving DecidableEq

/-- Stand-in for `NDJsonReadOptions`. -/
structure NDJsonReadOptions where
  v : Nat
deriving DecidableEq

/-- Stand-in for `ParquetOptions`. -/
structure ParquetOptions where
  v : Nat
deriving DecidableEq

/-- Stand-in for `IpcScanOptions`. -/
structure IpcScanOptions where
  v : Nat
deriving DecidableEq

/-- Stand-in for `polars_io::cloud::CloudOptions`. -/
structure CloudOptions where
  v : Nat
deriving DecidableEq

/-- Stand-in for `FileMetadataRef` (cached parquet file metadata). -/
structure FileMetadataRef where
  v : Nat
deriving DecidableEq

/-- Stand-in for `Arc<arrow::io::ipc::read::FileMetadata>`. -/
structure ArrowFileMetadata where
  v : Nat
deriving DecidableEq

/-- Stand-in for `Arc<AnonymousScanOptions>` (hashed via its contents). -/
structure AnonymousScanOptions where
  v : Nat
deriving DecidableEq

/-- Stand-in for `Arc<dyn AnonymousScan>`: an opaque trait object, carrying
only an identity; the Rust `PartialEq` impl never compares it. -/
structure AnonymousScan where
  id : Nat

/-- `enum FileScan` from `file_scan.rs`, all features enabled. -/
inductive FileScan where
  | Csv (options : CsvReadOptions) (cloud_options : Option CloudOptions)
  | NDJson (options : NDJsonReadOptions) (cloud_options : Option CloudOptions)
  | Parquet (options : ParquetOptions) (cloud_options : Option CloudOptions)
      (metadata : Option FileMetadataRef)
  | Ipc (options : IpcScanOptions) (cloud_options : Option CloudOptions)
      (metadata : Option ArrowFileMetadata)
  | Anonymous (options : AnonymousScanOptions) (function : AnonymousScan)

/-- `impl PartialEq for FileScan` : field-by-field comparison that ignores the
`metadata` field of `Parquet`/`Ipc`, with a `_ => false` catch-all (which in
particular makes any comparison involving `Anonymous` return `false`). -/
def fileScanEq : FileScan → FileScan → Bool
  | FileScan.Csv l c_l, FileScan.Csv r c_r => decide (l = r) && decide (c_l = c_r)
  | FileScan.Parquet opt_l c_l _, FileScan.Parquet opt_r c_r _ =>
      decide (opt_l = opt_r) && decide (c_l = c_r)
  | FileScan.Ipc l c_l _, FileScan.Ipc r c_r _ => decide (l = r) && decide (c_l = c_r)
  | FileScan.NDJson l c_l, FileScan.NDJson r c_r => decide (l = r) && decide (c_l = c_r)
  | _, _ => false

/-- `std::mem::discriminant`, modelled as the variant index. -/
def fileScanDiscriminant : FileScan → Nat
  | FileScan.Csv .. => 0
  | FileScan.NDJson .. => 1
  | FileScan.Parquet .. => 2
  | FileScan.Ipc .. => 3
  | FileScan.Anonymous .. => 4

/-- Rust `Hash` of an `Option`: discriminant, then the value if present.
The hasher is modelled as the list of words fed to it. -/
def hashOptCloud : Option CloudOptions → List Nat
  | none => [0]
  | some c => [1, c.v]

/-- `impl Hash for FileScan` : feeds the discriminant, then per variant the
`options` and `cloud_options` (skipping `metadata` for `Parquet`/`Ipc`), and
for `Anonymous` only the `options`. The hasher state is modelled as the list
of words fed to it. -/
def fileScanHash (s : FileScan) : List Nat :=
  fileScanDiscriminant s ::
    match s with
    | FileScan.Csv options cloud_options => options.v :: hashOptCloud cloud_options
    | FileScan.Parquet options cloud_options _ => options.v :: hashOptCloud cloud_options
    | FileScan.Ipc options cloud_options _ => options.v :: hashOptCloud cloud_options
    | FileScan.NDJson options cloud_options => options.v :: hashOptCloud cloud_options
    | FileScan.Anonymous options _ => [options.v]

/-- `FileScan::remove_metadata` : clears the cached metadata of
`Parquet`/`Ipc`, leaves every other variant untouched. -/
def FileScan.remove_metadata : FileScan → FileScan
  | FileScan.Parquet options cloud_options _ => FileScan.Parquet options cloud_options none
  | FileScan.Ipc options cloud_options _ => FileScan.Ipc options cloud_options none
  | s => s

lemma fileScanEq_remove_metadata_left (x y : FileScan) :
    fileScanEq (FileScan.remove_metadata x) y = fileScanEq x y := by
  cases x <;> cases y <;> rfl

lemma fileScanEq_remove_metadata_right (x y : FileScan) :
    fileScanEq y (FileScan.remove_metadata x) = fileScanEq y x := by
  cases x <;> cases y <;> rfl

lemma fileScanHash_remove_metadata (x : FileScan) :
    fileScanHash (FileScan.remove_metadata x) = fileScanHash x := by
  cases x <;> rfl

lemma fileScanEq_hash (x y : FileScan) :
    fileScanEq x y = true → fileScanHash x = fileScanHash y := by
  cases x <;> cases y <;>
    simp [fileScanEq, fileScanHash, fileScanDiscriminant] <;>
    rintro rfl rfl <;> exact ⟨rfl, rfl⟩

/-- Claim C9: for a `FileScan.Anonymous` value `x`, the equality test `x == x`
returns `false` (the custom `PartialEq` has no `Anonymous`/`Anonymous` arm, so
the `_ => false` catch-all applies); more generally no two `Anonymous` scans
ever compare equal. -/
theorem anonymous_scan_eq_irreflexive (o o2 : AnonymousScanOptions)
    (f f2 : AnonymousScan) :
    fileScanEq (FileScan.Anonymous o f) (FileScan.Anonymous o f) = false ∧
    fileScanEq (FileScan.Anonymous o f) (FileScan.Anonymous o2 f2) = false :=
  ⟨rfl, rfl⟩

/-- Claim C10: equality and hashing of `FileScan` ignore the cached metadata
field, so `remove_metadata` changes neither a value's equality relation to any
other value nor its hash, and equal values always have equal hashes. -/
theorem metadata_ignored_eq_hash (x y : FileScan) :
    fileScanEq (FileScan.remove_metadata x) y = fileScanEq x y ∧
    fileScanEq y (FileScan.remove_metadata x) = fileScanEq y x ∧
    fileScanHash (FileScan.remove_metadata x) = fileScanHash x ∧
    (fileScanEq x y = true → fileScanHash x = fileScanHash y) :=
  ⟨fileScanEq_remove_metadata_left x y, fileScanEq_remove_metadata_right x y,
    fileScanHash_remove_metadata x, fileScanEq_hash x y⟩

/-- Witness for C10 at a concrete pair: two `Parquet` scans equal despite
different metadata, with equal hashes. -/
theorem metadata_ignored_eq_hash_witness :
    fileScanEq (FileScan.Parquet ⟨1⟩ none (some ⟨7⟩)) (FileScan.Parquet ⟨1⟩ none none)
      = true ∧
    fileScanHash (FileScan.Parquet ⟨1⟩ none (some ⟨7⟩))
      = fileScanHash (FileScan.Parquet ⟨1⟩ none none) :=
  ⟨by decide,
    (metadata_ignored_eq_hash (FileScan.Parquet ⟨1⟩ none (some ⟨7⟩))
      (FileScan.Parquet ⟨1⟩ none none)).2.2.2 (by decide)⟩

/-! ## io_sources/mod.rs : PhaseOutcomeToken

`PhaseOutcomeToken` wraps an `Arc<AtomicBool>`. The heap of atomic booleans is
modelled explicitly: a list of flags indexed by address, every flag allocated
by `new` starting out `false`. A token is the address of its flag; `Clone`
copies the address (the `Arc` is shared, not the flag). Atomic loads/stores
with relaxed ordering on a single flag are modelled as plain reads/writes. -/

/-- The heap of `AtomicBool` cells backing `Arc<AtomicBool>` values. -/
structure AtomicHeap where
  flags : List Bool
deriving DecidableEq

/-- `AtomicBool::load`: an unallocated address reads as the default `false`. -/
def AtomicHeap.load (h : AtomicHeap) (a : Nat) : Bool :=
  h.flags.getD a false

/-- `AtomicBool::store(true, ..)` at address `a`. -/
def AtomicHeap.storeTrue (h : AtomicHeap) (a : Nat) : AtomicHeap :=
  ⟨h.flags.set a true⟩

/-- `PhaseOutcomeToken { stop: Arc<AtomicBool> }`: the token holds the address
of its shared flag. -/
structure PhaseOutcomeToken where
  stopFlag : Nat
deriving DecidableEq

/-- `PhaseOutcomeToken::new()`: allocates a fresh flag, initially `false`. -/
def PhaseOutcomeToken.new (h : AtomicHeap) : AtomicHeap × PhaseOutcomeToken :=
  (⟨h.flags ++ [false]⟩, ⟨h.flags.length⟩)

/-- `Clone for PhaseOutcomeToken`: clones the `Arc`, i.e. shares the address. -/
def PhaseOutcomeToken.clone (t : PhaseOutcomeToken) : PhaseOutcomeToken :=
  ⟨t.stopFlag⟩

/-- `PhaseOutcomeToken::stop()`: `self.stop.store(true, Relaxed)`. -/
def PhaseOutcomeToken.stop (t : PhaseOutcomeToken) (h : AtomicHeap) : AtomicHeap :=
  h.storeTrue t.stopFlag

/-- `PhaseOutcomeToken::was_stopped()`: `self.stop.load(Relaxed)`. -/
def PhaseOutcomeToken.was_stopped (t : PhaseOutcomeToken) (h : AtomicHeap) : Bool :=
  h.load t.stopFlag

/-- `PhaseOutcomeToken::did_finish()`: `!self.was_stopped()`. -/
def PhaseOutcomeToken.did_finish (t : PhaseOutcomeToken) (h : AtomicHeap) : Bool :=
  !(t.was_stopped h)

/-- The heap-mutating operations available on tokens: allocating a new token
and stopping an existing one (`was_stopped`/`did_finish`/`clone` are pure). -/
inductive TokenOp where
  | newTok
  | stopTok (t : PhaseOutcomeToken)

/-- Effect of one token operation on the heap. -/
def applyTokenOp (h : AtomicHeap) : TokenOp → AtomicHeap
  | TokenOp.newTok => (PhaseOutcomeToken.new h).1
  | TokenOp.stopTok t => t.stop h

/-- Effect of a sequence of token operations on the heap. -/
def applyTokenOps (h : AtomicHeap) : List TokenOp → AtomicHeap
  | [] => h
  | op :: ops => applyTokenOps (applyTokenOp h op) ops

lemma List.getD_set_true_of_true (l : List Bool) (i a : Nat)
    (h : l.getD a false = true) : (l.set i true).getD a false = true := by
  induction l generalizing i a with
  | nil => simp at h
  | cons b bs ih =>
    cases i with
    | zero =>
      cases a with
      | zero => simp [List.set]
      | succ a2 => simpa using h
    | succ i2 =>
      cases a with
      | zero => simpa using h
      | succ a2 => simpa using ih i2 a2 (by simpa using h)

lemma List.getD_append_false_of_true (l : List Bool) (a : Nat)
    (h : l.getD a false = true) : (l ++ [false]).getD a false = true := by
  induction l generalizing a with
  | nil => simp at h
  | cons b bs ih =>
    cases a with
    | zero => simpa using h
    | succ a2 => simpa using ih a2 (by simpa using h)

lemma List.getD_set_true_self (l : List Bool) (a : Nat) (ha : a < l.length) :
    (l.set a true).getD a false = true := by
  induction l generalizing a with
  | nil => simp at ha
  | cons b bs ih =>
    cases a with
    | zero => simp [List.set]
    | succ a2 => simpa using ih a2 (by simpa using ha)

/-- A flag that reads `true` still reads `true` after any token operation:
`new` only appends a fresh `false` cell and `stop` only writes `true`. -/
lemma load_mono_tokenOp (h : AtomicHeap) (a : Nat) (op : TokenOp)
    (ht : h.load a = true) : (applyTokenOp h op).load a = true := by
  cases op with
  | newTok =>
    exact List.getD_append_false_of_true h.flags a ht
  | stopTok t =>
    exact List.getD_set_true_of_true h.flags t.stopFlag a ht

lemma load_mono_tokenOps (h : AtomicHeap) (a : Nat) (ops : List TokenOp)
    (ht : h.load a = true) : (applyTokenOps h ops).load a = true := by
  induction ops generalizing h with
  | nil => exact ht
  | cons op ops ih => exact ih (applyTokenOp h op) (load_mono_tokenOp h a op ht)

/-- Claim C4: `did_finish` is always the negation of `was_stopped`; clones
share the same underlying flag (cloning copies the `Arc`, so a stop through
the clone is observed by the original and vice versa); and once `stop()` has
been called on a token whose flag is allocated in the heap, `was_stopped`
stays `true` and `did_finish` stays `false` after any further sequence of
token operations. -/
theorem phase_outcome_token_invariants (h : AtomicHeap) (t : PhaseOutcomeToken)
    (ops : List TokenOp) (hv : t.stopFlag < h.flags.length) :
    t.did_finish h = !(t.was_stopped h)
    ∧ t.clone = t
    ∧ t.was_stopped ((t.clone).stop h) = true
    ∧ (t.clone).was_stopped (t.stop h) = true
    ∧ t.was_stopped (applyTokenOps (t.stop h) ops) = true
    ∧ t.did_finish (applyTokenOps (t.stop h) ops) = false := by
  have hstop : t.was_stopped (t.stop h) = true :=
    List.getD_set_true_self h.flags t.stopFlag hv
  have hops : t.was_stopped (applyTokenOps (t.stop h) ops) = true :=
    load_mono_tokenOps (t.stop h) t.stopFlag ops hstop
  refine ⟨rfl, rfl, hstop, hstop, hops, ?_⟩
  simp [PhaseOutcomeToken.did_finish, hops]

/-- Witness for C4 at a concrete heap and token. -/
theorem phase_outcome_token_invariants_witness :
    (PhaseOutcomeToken.mk 0).stopFlag < (AtomicHeap.mk [false]).flags.length
    ∧ ((PhaseOutcomeToken.mk 0).did_finish (AtomicHeap.mk [false])
        = !((PhaseOutcomeToken.mk 0).was_stopped (AtomicHeap.mk [false]))
      ∧ (PhaseOutcomeToken.mk 0).clone = PhaseOutcomeToken.mk 0
      ∧ (PhaseOutcomeToken.mk 0).was_stopped
          (((PhaseOutcomeToken.mk 0).clone).stop (AtomicHeap.mk [false])) = true
      ∧ ((PhaseOutcomeToken.mk 0).clone).was_stopped
          ((PhaseOutcomeToken.mk 0).stop (AtomicHeap.mk [false])) = true
      ∧ (PhaseOutcomeToken.mk 0).was_stopped
          (applyTokenOps ((PhaseOutcomeToken.mk 0).stop (AtomicHeap.mk [false]))
            [TokenOp.newTok]) = true
      ∧ (PhaseOutcomeToken.mk 0).did_finish
          (applyTokenOps ((PhaseOutcomeToken.mk 0).stop (AtomicHeap.mk [false]))
            [TokenOp.newTok]) = false) :=
  ⟨by decide,
    phase_outcome_token_invariants (AtomicHeap.mk [false]) (PhaseOutcomeToken.mk 0)
      [TokenOp.newTok] (by decide)⟩

/-! ## io_sources/mod.rs : SourceOutputPort -/

/-- A batch of rows; its contents are irrelevant to the adapter logic. -/
structure Morsel where
  rows : Nat

/-- One end of an async channel, identified by the id of its channel. -/
structure Sender (α : Type) where
  id : Nat
deriving DecidableEq

/-- `enum SourceOutputPort { Serial(Sender<Morsel>), Parallel(Vec<Sender<Morsel>>) }`. -/
inductive SourceOutputPort where
  | Serial (s : Sender Morsel)
  | Parallel (s : List (Sender Morsel))

/-- `SourceOutputPort::serial` : returns the wrapped sender, and on the
`Parallel` shape hits the `_ => panic!()` arm, modelled as `none`. -/
def SourceOutputPort.serial : SourceOutputPort → Option (Sender Morsel)
  | SourceOutputPort.Serial s => some s
  | _ => none

/-- `SourceOutputPort::parallel` : returns the wrapped senders, and on the
`Serial` shape hits the `_ => panic!()` arm, modelled as `none`. -/
def SourceOutputPort.parallel : SourceOutputPort → Option (List (Sender Morsel))
  | SourceOutputPort.Parallel s => some s
  | _ => none

/-- Claim C8: the accessor of the wrong shape fails fatally (the `panic` arm,
modelled as `none`), and the accessor of the matching shape returns the
wrapped sink(s). -/
theorem source_output_port_accessors (s : Sender Morsel) (ss : List (Sender Morsel)) :
    (SourceOutputPort.Parallel ss).serial = none
    ∧ (SourceOutputPort.Serial s).parallel = none
    ∧ (SourceOutputPort.Serial s).serial = some s
    ∧ (SourceOutputPort.Parallel ss).parallel = some ss :=
  ⟨rfl, rfl, rfl, rfl⟩

/-! ## io_sources/mod.rs : the driving task spawned for each phase

`SourceComputeNode::spawn` spawns one high-priority driving task per phase:

    if started.output_send.send(source_output).await.is_ok() {
        wait_group.wait().await;
        if !outcome.did_finish() { return Ok(()); }
        // verbose logging only
    };
    while let Some(ret) = started.join_handles.next().await { ret?; }
    Ok(())

The task is modelled as a function of: whether the handoff send succeeded
(`sendOk`), the value `outcome.did_finish()` reads after the wait group has
resolved (`didFinish`), and the results of the background join handles in the
order `FuturesUnordered` completes them (`handles`). It returns the phase
result together with the number of join handles the task awaited. -/

/-- Stand-in for `PolarsError`. -/
structure PolarsError where
  code : Nat
deriving DecidableEq

/-- The drain loop `while let Some(ret) = join_handles.next().await { ret?; }`
followed by `Ok(())`: propagates the first error in completion order. -/
def drainJoinHandles : List (Except PolarsError Unit) → Except PolarsError Unit
  | [] => Except.ok ()
  | Except.ok _ :: rs => drainJoinHandles rs
  | Except.error e :: _ => Except.error e

/-- How many join handles the drain loop awaits: all of them when none fails,
and everything up to and including the first failing one otherwise. -/
def drainedCount : List (Except PolarsError Unit) → Nat
  | [] => 0
  | Except.ok _ :: rs => drainedCount rs + 1
  | Except.error _ :: _ => 1

/-- The driving task of one phase (body of `scope.spawn_task` in
`SourceComputeNode::spawn`). Returns `(phase result, join handles awaited)`. -/
def driveTask (sendOk didFinish : Bool) (handles : List (Except PolarsError Unit)) :
    Except PolarsError Unit × Nat :=
  if sendOk && !didFinish then (Except.ok (), 0)
  else (drainJoinHandles handles, drainedCount handles)

/-- Modelled from the spec: "the first error encountered" among the completed
background tasks, used to compare the drain loop against the spec's words. -/
def firstErrorSpec : List (Except PolarsError Unit) → Option PolarsError
  | [] => none
  | Except.error e :: _ => some e
  | Except.ok _ :: rs => firstErrorSpec rs

/-- Modelled from the spec: the phase result dictated by the first error, if
any. -/
def resultOfFirstError : Option PolarsError → Except PolarsError Unit
  | some e => Except.error e
  | none => Except.ok ()

lemma drainJoinHandles_eq_firstError (hs : List (Except PolarsError Unit)) :
    drainJoinHandles hs = resultOfFirstError (firstErrorSpec hs) := by
  induction hs with
  | nil => rfl
  | cons r rs ih =>
    cases r with
    | ok u => simpa [drainJoinHandles, firstErrorSpec] using ih
    | error e => rfl

/-- Claim C6: in a phase whose Phase Output was delivered (`sendOk = true`)
and whose Completion Token reads finished, the driving task drains the join
handles in completion order and the phase result is the first error among
them, if any — success when no background task failed. -/
theorem drive_task_first_error_wins (hs : List (Except PolarsError Unit)) :
    (driveTask true true hs).1 = resultOfFirstError (firstErrorSpec hs)
    ∧ (firstErrorSpec hs = none → (driveTask true true hs).1 = Except.ok ()) := by
  constructor
  · simpa [driveTask] using drainJoinHandles_eq_firstError hs
  · intro hnone
    simp [driveTask, drainJoinHandles_eq_firstError hs, hnone, resultOfFirstError]

/-- Witness for C6 at concrete completion orders: one where the second handle
fails, and one with no failure at all. -/
theorem drive_task_first_error_wins_witness :
    ((driveTask true true [Except.ok (), Except.error ⟨3⟩, Except.ok ()]).1
        = resultOfFirstError
            (firstErrorSpec [Except.ok (), Except.error ⟨3⟩, Except.ok ()]))
    ∧ firstErrorSpec [Except.ok (), Except.ok ()] = none
    ∧ (driveTask true true [Except.ok (), Except.ok ()]).1 = Except.ok () :=
  ⟨(drive_task_first_error_wins [Except.ok (), Except.error ⟨3⟩, Except.ok ()]).1,
    by decide,
    (drive_task_first_error_wins [Except.ok (), Except.ok ()]).2 (by decide)⟩

/-- Claim C7: in a phase whose Phase Output was delivered, once the Wait Group
has resolved and the Completion Token reads stopped (not finished), the
driving task returns `Ok` immediately, awaiting zero join handles. -/
theorem drive_task_stopped_returns_ok (hs : List (Except PolarsError Unit)) :
    driveTask true false hs = (Except.ok (), 0) :=
  rfl

/-- Counterexample to C1 as stated: when the handoff send fails and a
background task has failed, the driving task does not return `Ok` — it drains
the join handles and propagates the error. -/
theorem send_fail_drains_counterexample :
    (driveTask false true [Except.error ⟨5⟩]).1 = Except.error ⟨5⟩
    ∧ (driveTask false true [Except.error ⟨5⟩]).1 ≠ Except.ok () := by
  constructor
  · rfl
  · intro h
    simp [driveTask, drainJoinHandles] at h

/-- Claim C1 as amended: when the handoff send fails (channel closed), the
driving task skips the wait group and the outcome check and proceeds directly
to draining the background join handles, returning the first error among them
if any and `Ok` otherwise. -/
theorem send_fail_drains_first_error (didFinish : Bool)
    (hs : List (Except PolarsError Unit)) :
    (driveTask false didFinish hs).1 = resultOfFirstError (firstErrorSpec hs) := by
  simpa [driveTask] using drainJoinHandles_eq_firstError hs

/-! ## io_sources/mod.rs : SourceComputeNode::update_state -/

/-- `enum PortState` of the compute-node graph. -/
inductive PortState where
  | Blocked
  | Ready
  | Done
deriving DecidableEq

/-- `StartedSourceComputeNode { output_send, join_handles }`: the sender end
of the handoff channel (identified by its channel id) and the set of
background join handles (identified by task ids; only emptiness and identity
matter to the embedded logic). -/
structure StartedSourceComputeNode where
  output_send : Nat
  join_handles : List Nat
deriving DecidableEq

/-- The part of `SourceComputeNode` that `update_state` reads: the
`started: Option<StartedSourceComputeNode>` field. -/
structure SourceComputeNode where
  started : Option StartedSourceComputeNode
deriving DecidableEq

/-- `self.started.as_ref().is_some_and(|s| s.join_handles.is_empty())`. -/
def drainedB (node : SourceComputeNode) : Bool :=
  match node.started with
  | some s => s.join_handles.isEmpty
  | none => false

/-- `SourceComputeNode::update_state` restricted to its effect on the single
send port (the asserts fix `recv = []` and `send.len() == 1`): first
`send[0] = Done` if the started-state exists with an empty task set, then
`send[0] = Ready` unless `send[0]` is (now) `Done`. -/
def update_state (node : SourceComputeNode) (send0 : PortState) : PortState :=
  let send1 := if drainedB node then PortState.Done else send0
  if send1 ≠ PortState.Done then PortState.Ready else send1

lemma update_state_char (node : SourceComputeNode) (send0 : PortState) :
    update_state node send0 =
      if drainedB node = true ∨ send0 = PortState.Done
      then PortState.Done else PortState.Ready := by
  cases h : drainedB node <;> cases send0 <;> simp [update_state, h]

/-- Counterexample to C3 as stated: a call on a node that has not started
(task set not drained) with the port already `Done` leaves the port `Done`
instead of marking it `Ready`. -/
theorem update_state_done_not_ready_counterexample :
    update_state (SourceComputeNode.mk none) PortState.Done ≠ PortState.Ready
    ∧ update_state (SourceComputeNode.mk none) PortState.Done = PortState.Done := by
  exact ⟨by decide, by decide⟩

/-- Claim C3 as amended: after a call, the send port is `Done` if the
started-state exists with an empty task set or the port was already `Done` on
entry; otherwise it is `Ready`. -/
theorem update_state_characterization (node : SourceComputeNode) (send0 : PortState) :
    update_state node send0 =
      if drainedB node = true ∨ send0 = PortState.Done
      then PortState.Done else PortState.Ready :=
  update_state_char node send0

/-- Iterated `update_state` calls, threading the send-port state through a
sequence of observed node states. -/
def runUpdates (p : PortState) : List SourceComputeNode → PortState
  | [] => p
  | n :: ns => runUpdates (update_state n p) ns

/-- The `i`-th call is the one that turns the port report into `Done`. -/
def doneTransitionAt (ns : List SourceComputeNode) (p0 : PortState) (i : Nat) : Prop :=
  runUpdates p0 (ns.take i) ≠ PortState.Done
  ∧ runUpdates p0 (ns.take (i + 1)) = PortState.Done

lemma update_state_done (n : SourceComputeNode) :
    update_state n PortState.Done = PortState.Done := by
  cases h : drainedB n <;> simp [update_state, h]

lemma update_state_drained (n : SourceComputeNode) (p : PortState)
    (h : drainedB n = true) : update_state n p = PortState.Done := by
  rw [update_state_char]
  simp [h]

lemma runUpdates_done (ns : List SourceComputeNode) :
    runUpdates PortState.Done ns = PortState.Done := by
  induction ns with
  | nil => rfl
  | cons n ns ih => simpa [runUpdates, update_state_done n] using ih

lemma runUpdates_append (p : PortState) (a b : List SourceComputeNode) :
    runUpdates p (a ++ b) = runUpdates (runUpdates p a) b := by
  induction a generalizing p with
  | nil => rfl
  | cons n a ih => simpa [runUpdates] using ih (update_state n p)

lemma runUpdates_take_mono (ns : List SourceComputeNode) (p0 : PortState)
    (i j : Nat) (hij : i ≤ j) (hd : runUpdates p0 (ns.take i) = PortState.Done) :
    runUpdates p0 (ns.take j) = PortState.Done := by
  have hj : j = i + (j - i) := by omega
  rw [hj, List.take_add, runUpdates_append, hd, runUpdates_done]

lemma runUpdates_no_drain (ns : List SourceComputeNode) (p0 : PortState)
    (h0 : p0 ≠ PortState.Done) (hnd : ∀ n ∈ ns, drainedB n = false) :
    runUpdates p0 ns ≠ PortState.Done := by
  induction ns generalizing p0 with
  | nil => exact h0
  | cons n ns ih =>
    have hn : drainedB n = false := hnd n (List.mem_cons_self n ns)
    have hstep : update_state n p0 = PortState.Ready := by
      rw [update_state_char]
      simp [hn, h0]
    have : runUpdates p0 (n :: ns) = runUpdates PortState.Ready ns := by
      simp [runUpdates, hstep]
    rw [this]
    exact ih PortState.Ready (by decide) (fun m hm => hnd m (List.mem_cons_of_mem n hm))

lemma exists_doneTransition (ns : List SourceComputeNode) (p0 : PortState)
    (h0 : p0 ≠ PortState.Done) (hdone : runUpdates p0 ns = PortState.Done) :
    ∃ i, doneTransitionAt ns p0 i := by
  induction ns generalizing p0 with
  | nil => exact absurd hdone h0
  | cons n ns ih =>
    by_cases h1 : update_state n p0 = PortState.Done
    · refine ⟨0, ?_, ?_⟩
      · simpa [runUpdates] using h0
      · simpa [runUpdates, List.take] using h1
    · have hrun : runUpdates (update_state n p0) ns = PortState.Done := by
        simpa [runUpdates] using hdone
      obtain ⟨i, hi1, hi2⟩ := ih (update_state n p0) h1 hrun
      refine ⟨i + 1, ?_, ?_⟩
      · simpa [List.take, runUpdates] using hi1
      · simpa [List.take, runUpdates] using hi2

lemma drained_mem_done (ns : List SourceComputeNode) (p0 : PortState)
    (h : ∃ n ∈ ns, drainedB n = true) :
    runUpdates p0 ns = PortState.Done := by
  obtain ⟨n, hmem, hn⟩ := h
  obtain ⟨a, b, rfl⟩ := List.append_of_mem hmem
  rw [runUpdates_append]
  have : runUpdates (runUpdates p0 a) (n :: b) =
      runUpdates PortState.Done b := by
    simp [runUpdates, update_state_drained n _ hn]
  rw [this, runUpdates_done]

/-- Claim C2: threading the send-port report through any sequence of
`update_state` calls, starting from a non-`Done` report: the report is never
`Done` while no call has seen the started task set drained; the transition to
`Done` happens at most once, and exactly once as soon as some call sees the
task set drained; and once `Done` the report stays `Done` (never `Done` then
`Ready`). -/
theorem update_state_done_once_monotone (ns : List SourceComputeNode)
    (p0 : PortState) (h0 : p0 ≠ PortState.Done) :
    ((∀ n ∈ ns, drainedB n = false) → runUpdates p0 ns ≠ PortState.Done)
    ∧ (∀ i j, doneTransitionAt ns p0 i → doneTransitionAt ns p0 j → i = j)
    ∧ ((∃ n ∈ ns, drainedB n = true) → ∃ i, doneTransitionAt ns p0 i)
    ∧ (∀ i j, i ≤ j → runUpdates p0 (ns.take i) = PortState.Done →
        runUpdates p0 (ns.take j) = PortState.Done) := by
  refine ⟨runUpdates_no_drain ns p0 h0, ?_, ?_, fun i j => runUpdates_take_mono ns p0 i j⟩
  · intro i j hi hj
    rcases Nat.lt_trichotomy i j with hlt | heq | hgt
    · exact absurd (runUpdates_take_mono ns p0 (i + 1) j hlt hi.2) hj.1
    · exact heq
    · exact absurd (runUpdates_take_mono ns p0 (j + 1) i hgt hj.2) hi.1
  · intro hmem
    exact exists_doneTransition ns p0 h0 (drained_mem_done ns p0 hmem)

/-- Witness for C2 at a concrete sequence: a node that starts un-started,
then appears with a drained task set. -/
theorem update_state_done_once_monotone_witness :
    (PortState.Ready ≠ PortState.Done)
    ∧ ∃ i, doneTransitionAt
        [SourceComputeNode.mk none,
         SourceComputeNode.mk (some (StartedSourceComputeNode.mk 0 []))]
        PortState.Ready i :=
  ⟨by decide,
    (update_state_done_once_monotone
      [SourceComputeNode.mk none,
       SourceComputeNode.mk (some (StartedSourceComputeNode.mk 0 []))]
      PortState.Ready (by decide)).2.2.1
      ⟨SourceComputeNode.mk (some (StartedSourceComputeNode.mk 0 [])),
        by simp, by decide⟩⟩

/-! ## io_sources/mod.rs : lazy start-once in SourceComputeNode::spawn

The `self.started.get_or_insert_with(|| { let (tx, rx) = connector(); ...
self.source.spawn_source(rx, ...); ... })` block of `spawn`, instrumented
with an allocation counter for `connector()` (so distinct channels have
distinct ids) and a counter of `spawn_source` invocations. The tasks the
producer registers are abstracted as a list of task ids. The later per-phase
work of `spawn` (port shaping and the driving task) does not touch
`self.started` and is modelled separately by `driveTask`. -/

/-- `SourceComputeNode` state as `spawn` sees it, plus instrumentation. -/
structure NodeSpawnState where
  started : Option StartedSourceComputeNode
  nextChannelId : Nat
  spawnSourceCalls : Nat
deriving DecidableEq

/-- The `get_or_insert_with` block of `SourceComputeNode::spawn`: on a `none`
started-state it creates the handoff channel, invokes `spawn_source` (which
registers `tasks`), and stores the new started-state; on `some` it returns
the existing one untouched. Result: (state after the call, the started-state
the rest of `spawn` borrows). -/
def spawnStart (tasks : List Nat) (st : NodeSpawnState) :
    NodeSpawnState × StartedSourceComputeNode :=
  match st.started with
  | some s => (st, s)
  | none =>
      let s : StartedSourceComputeNode :=
        { output_send := st.nextChannelId, join_handles := tasks }
      ({ started := some s, nextChannelId := st.nextChannelId + 1,
         spawnSourceCalls := st.spawnSourceCalls + 1 }, s)

/-- State after `k` successive `spawn` calls. -/
def spawnIter (tasks : List Nat) (st : NodeSpawnState) : Nat → NodeSpawnState
  | 0 => st
  | k + 1 => (spawnStart tasks (spawnIter tasks st k)).1

lemma spawnStart_of_started (tasks : List Nat) (st : NodeSpawnState)
    (s : StartedSourceComputeNode) (h : st.started = some s) :
    spawnStart tasks st = (st, s) := by
  simp [spawnStart, h]

lemma spawnIter_succ_eq (tasks : List Nat) (c : Nat) (k : Nat) :
    spawnIter tasks (NodeSpawnState.mk none c 0) (k + 1) =
      NodeSpawnState.mk (some (StartedSourceComputeNode.mk c tasks)) (c + 1) 1 := by
  induction k with
  | zero => rfl
  | succ k ih =>
    show (spawnStart tasks (spawnIter tasks (NodeSpawnState.mk none c 0) (k + 1))).1 =
      NodeSpawnState.mk (some (StartedSourceComputeNode.mk c tasks)) (c + 1) 1
    rw [ih, spawnStart_of_started tasks _ (StartedSourceComputeNode.mk c tasks) rfl]

/-- Claim C5: starting from a fresh node (`started = none`, no `spawn_source`
call yet), any number of `spawn` calls invokes `spawn_source` exactly once —
during the first call, which installs the started-state holding the
first-created handoff channel sender and the task set it registered — and
every later call reuses that same started-state unchanged; the started-state
never returns to `none`. -/
theorem spawn_starts_once (tasks : List Nat) (c k : Nat) :
    (spawnIter tasks (NodeSpawnState.mk none c 0) (k + 1)).started
        = some (StartedSourceComputeNode.mk c tasks)
    ∧ (spawnIter tasks (NodeSpawnState.mk none c 0) (k + 1)).spawnSourceCalls = 1
    ∧ (spawnStart tasks (spawnIter tasks (NodeSpawnState.mk none c 0) (k + 1))).2
        = StartedSourceComputeNode.mk c tasks
    ∧ (spawnStart tasks (spawnIter tasks (NodeSpawnState.mk none c 0) (k + 1))).1
        = spawnIter tasks (NodeSpawnState.mk none c 0) (k + 1) := by
  rw [spawnIter_succ_eq tasks c k]
  exact ⟨rfl, rfl, rfl, rfl⟩

end PolarsSpec
